import Mathlib

/-!
PMU monitor (part3.c) and its user-space clients (part4_*.c).

A shallow embedding of the kernel module `part3.c` (counter programming,
start/stop control, cross-core aggregation, the `/proc` report) and of the
report reader `pmu_read_stats` of the two client programs.

* A core is its PMU register file together with the history of `msr` writes
  executed on it.  The C helpers `write_*_el0` are one `msr` each.
* The machine is the list of possible CPUs (index = CPU id), each with an
  online flag, plus the global `pmu_state`.
* `on_each_cpu` runs a per-CPU function on every online CPU.
* Text is a list of characters; a C string is such a list read up to its
  first NUL.
-/

namespace PmuMonitor

/-! ## Constants of part3.c -/

def EVT_INSTR_RETIRED : Nat := 0x08
def EVT_L1I_REFILL : Nat := 0x01
def EVT_L1I_ACCESS : Nat := 0x14
def EVT_L1D_REFILL : Nat := 0x03
def EVT_L1D_ACCESS : Nat := 0x04
def EVT_LLC_REFILL : Nat := 0x17

def COUNTER_INSTRUCTIONS : Nat := 0
def COUNTER_L1I_REF : Nat := 1
def COUNTER_L1I_MISS : Nat := 2
def COUNTER_L1D_REF : Nat := 3
def COUNTER_L1D_MISS : Nat := 4
def COUNTER_LLC_MISS : Nat := 5

/-- The kernel macro `BIT(n)`, that is `1UL << n`. -/
def BIT (n : Nat) : Nat := 1 <<< n

def COUNTER_MASK : Nat :=
  BIT COUNTER_INSTRUCTIONS ||| BIT COUNTER_L1I_REF ||| BIT COUNTER_L1I_MISS |||
  BIT COUNTER_L1D_REF ||| BIT COUNTER_L1D_MISS ||| BIT COUNTER_LLC_MISS

def PMU_ENABLE_BIT : Nat := BIT 0
def PMU_RESET_EVENTS : Nat := BIT 1
def PMU_RESET_CYCLES : Nat := BIT 2
def PMU_CYCLE_COUNTER : Nat := BIT 31

/-- The C expression `~0U` converted to `u64`. -/
def NOT_0U : Nat := 0xFFFFFFFF

def EINVAL : Int := 22
def EFAULT : Int := 14
def ENOMEM : Int := 12

def U64 : Nat := 2 ^ 64

/-! ## The PMU registers of one core -/

/-- The system registers written by the module. -/
inductive Reg where
  | PMSELR
  | PMXEVTYPER
  | PMXEVCNTR
  | PMCR
  | PMCNTENSET
  | PMCNTENCLR
  | PMOVSCLR
  deriving DecidableEq

/-- One `msr reg, val`. -/
structure Write where
  reg : Reg
  val : Nat
  deriving DecidableEq

/-- The PMU register file of one core: the slot selector, the event bound to
each slot, the value of each event counter, the cycle counter, the control
register, the enable mask and the overflow flags. -/
structure Pmu where
  pmselr : Nat
  evtyper : List Nat
  evcntr : List Nat
  pmccntr : Nat
  pmcr : Nat
  pmcnten : Nat
  pmovs : Nat
  deriving DecidableEq

/-- Clear in `x` the bits that are set in `m` (a write-one-to-clear register). -/
def clear_bits (x m : Nat) : Nat := x ^^^ (x &&& m)

/-- Architectural effect of one `msr` on the register file.  `PMXEVTYPER` and
`PMXEVCNTR` act on the slot selected by `PMSELR`; `PMCNTENSET`, `PMCNTENCLR`
and `PMOVSCLR` set or clear the bits written as one; in `PMCR` bit 1 zeroes
every event counter, bit 2 zeroes the cycle counter, and both read back as
zero. -/
def hw_write (r : Reg) (v : Nat) (p : Pmu) : Pmu :=
  match r with
  | Reg.PMSELR => { p with pmselr := v }
  | Reg.PMXEVTYPER => { p with evtyper := p.evtyper.set p.pmselr v }
  | Reg.PMXEVCNTR => { p with evcntr := p.evcntr.set p.pmselr v }
  | Reg.PMCR =>
    { p with
      pmcr := clear_bits v (PMU_RESET_EVENTS ||| PMU_RESET_CYCLES)
      evcntr := if v.testBit 1 then p.evcntr.map (fun _ => 0) else p.evcntr
      pmccntr := if v.testBit 2 then 0 else p.pmccntr }
  | Reg.PMCNTENSET => { p with pmcnten := p.pmcnten ||| v }
  | Reg.PMCNTENCLR => { p with pmcnten := clear_bits p.pmcnten v }
  | Reg.PMOVSCLR => { p with pmovs := clear_bits p.pmovs v }

/-- A core: its registers and the `msr` writes executed on it so far. -/
structure Core where
  regs : Pmu
  trace : List Write
  deriving DecidableEq

/-- Execute `msr r, v` (followed by `isb`) on a core. -/
def msr (r : Reg) (v : Nat) (c : Core) : Core :=
  { regs := hw_write r v c.regs, trace := c.trace ++ [⟨r, v⟩] }

/-! ## Raw register helpers -/

def write_pmselr_el0 (val : Nat) (c : Core) : Core := msr Reg.PMSELR val c
def write_pmxevtyper_el0 (val : Nat) (c : Core) : Core := msr Reg.PMXEVTYPER val c
def write_pmxevcntr_el0 (val : Nat) (c : Core) : Core := msr Reg.PMXEVCNTR val c
def write_pmcr_el0 (val : Nat) (c : Core) : Core := msr Reg.PMCR val c
def write_pmcntenset_el0 (val : Nat) (c : Core) : Core := msr Reg.PMCNTENSET val c
def write_pmcntenclr_el0 (val : Nat) (c : Core) : Core := msr Reg.PMCNTENCLR val c
def write_pmovsclr_el0 (val : Nat) (c : Core) : Core := msr Reg.PMOVSCLR val c

/-- The register read `mrs %0, pmxevcntr_el0`: the counter of the selected slot,
as a `u64`. -/
def read_pmxevcntr_el0 (c : Core) : Nat := c.regs.evcntr.getD c.regs.pmselr 0 % U64

/-- The register read `mrs %0, pmccntr_el0`, as a `u64`. -/
def read_pmccntr_el0 (c : Core) : Nat := c.regs.pmccntr % U64

def read_event_counter (counter : Nat) (c : Core) : Nat × Core :=
  let c := write_pmselr_el0 counter c
  (read_pmxevcntr_el0 c, c)

def pmu_program_counter (counter event : Nat) (c : Core) : Core :=
  let c := write_pmselr_el0 counter c
  let c := write_pmxevtyper_el0 event c
  write_pmxevcntr_el0 0 c

/-! ## Per-CPU actions -/

/-- The body of `pmu_reset_cpu`, on the core that runs it. -/
def pmu_reset_cpu (c : Core) : Core :=
  let c := write_pmcntenclr_el0 (COUNTER_MASK ||| PMU_CYCLE_COUNTER) c
  let c := write_pmovsclr_el0 NOT_0U c
  let c := write_pmcr_el0 (PMU_ENABLE_BIT ||| PMU_RESET_EVENTS ||| PMU_RESET_CYCLES) c
  let c := pmu_program_counter COUNTER_INSTRUCTIONS EVT_INSTR_RETIRED c
  let c := pmu_program_counter COUNTER_L1I_REF EVT_L1I_ACCESS c
  let c := pmu_program_counter COUNTER_L1I_MISS EVT_L1I_REFILL c
  let c := pmu_program_counter COUNTER_L1D_REF EVT_L1D_ACCESS c
  let c := pmu_program_counter COUNTER_L1D_MISS EVT_L1D_REFILL c
  let c := pmu_program_counter COUNTER_LLC_MISS EVT_LLC_REFILL c
  write_pmcntenset_el0 (COUNTER_MASK ||| PMU_CYCLE_COUNTER) c

/-- The body of `pmu_disable_cpu`, on the core that runs it. -/
def pmu_disable_cpu (c : Core) : Core :=
  write_pmcntenclr_el0 (COUNTER_MASK ||| PMU_CYCLE_COUNTER) c

structure pmu_counts where
  instructions : Nat
  l1i_ref : Nat
  l1i_miss : Nat
  l1d_ref : Nat
  l1d_miss : Nat
  llc_miss : Nat
  cycles : Nat
  deriving DecidableEq

def pmu_read_local (c : Core) : pmu_counts × Core :=
  let (instructions, c) := read_event_counter COUNTER_INSTRUCTIONS c
  let (l1i_ref, c) := read_event_counter COUNTER_L1I_REF c
  let (l1i_miss, c) := read_event_counter COUNTER_L1I_MISS c
  let (l1d_ref, c) := read_event_counter COUNTER_L1D_REF c
  let (l1d_miss, c) := read_event_counter COUNTER_L1D_MISS c
  let (llc_miss, c) := read_event_counter COUNTER_LLC_MISS c
  let cycles := read_pmccntr_el0 c
  ({ instructions := instructions, l1i_ref := l1i_ref, l1i_miss := l1i_miss,
     l1d_ref := l1d_ref, l1d_miss := l1d_miss, llc_miss := llc_miss,
     cycles := cycles }, c)

/-! ## The machine and `on_each_cpu` -/

/-- A possible CPU: whether it is online, and its core. -/
structure Cpu where
  online : Bool
  core : Core
  deriving DecidableEq

inductive PmuState where
  | PMU_STOPPED
  | PMU_RUNNING
  deriving DecidableEq

/-- The possible CPUs, indexed by CPU id (`nr_cpu_ids` is the length), and the
global `pmu_state`. -/
structure Machine where
  cpus : List Cpu
  pmu_state : PmuState
  deriving DecidableEq

def nr_cpu_ids (m : Machine) : Nat := m.cpus.length

/-- Run `func info` on every online CPU, starting at CPU id `cpu`:
`func` receives the shared `info`, the id of the CPU it runs on
(`smp_processor_id()`) and that CPU's core. -/
def on_each_cpu_from {α : Type} (func : α → Nat → Core → α × Core) :
    Nat → α → List Cpu → α × List Cpu
  | _, info, [] => (info, [])
  | cpu, info, c :: cs =>
    if c.online then
      let r := func info cpu c.core
      let rest := on_each_cpu_from func (cpu + 1) r.1 cs
      (rest.1, { c with core := r.2 } :: rest.2)
    else
      let rest := on_each_cpu_from func (cpu + 1) info cs
      (rest.1, c :: rest.2)

/-- The kernel call `on_each_cpu(func, info, 1)`. -/
def on_each_cpu {α : Type} (func : α → Nat → Core → α × Core) (info : α)
    (cpus : List Cpu) : α × List Cpu :=
  on_each_cpu_from func 0 info cpus

/-- The callback `pmu_reset_cpu(void *unused)`. -/
def pmu_reset_cpu_cb (unused : Unit) (_cpu : Nat) (c : Core) : Unit × Core :=
  (unused, pmu_reset_cpu c)

/-- The callback `pmu_disable_cpu(void *unused)`. -/
def pmu_disable_cpu_cb (unused : Unit) (_cpu : Nat) (c : Core) : Unit × Core :=
  (unused, pmu_disable_cpu c)

def pmu_start_all_cpus (m : Machine) : Machine :=
  { cpus := (on_each_cpu pmu_reset_cpu_cb () m.cpus).2, pmu_state := PmuState.PMU_RUNNING }

def pmu_stop_all_cpus (m : Machine) : Machine :=
  { cpus := (on_each_cpu pmu_disable_cpu_cb () m.cpus).2, pmu_state := PmuState.PMU_STOPPED }

/-! ## `/proc/pmu_control` -/

/-- The NUL character that ends a C string. -/
def NUL : Char := '\x00'

/-- The libc/kernel `strncmp(s1, s2, n)` on C strings: a list is read up to
its first NUL, and reading at its end gives the terminating NUL. -/
def strncmp : List Char → List Char → Nat → Int
  | _, _, 0 => 0
  | s1, s2, n + 1 =>
    let c1 := s1.headD NUL
    let c2 := s2.headD NUL
    if c1 ≠ c2 then (c1.toNat : Int) - (c2.toNat : Int)
    else if c1 = NUL then 0
    else strncmp s1.tail s2.tail n

/-- The test of the first branch of `pmu_ctrl_write`. -/
def is_start_cmd (kbuf : List Char) : Bool :=
  strncmp kbuf "1".toList 1 = 0 || strncmp kbuf "start".toList 5 = 0 ||
  strncmp kbuf "reset".toList 5 = 0

/-- The test of the second branch of `pmu_ctrl_write`. -/
def is_stop_cmd (kbuf : List Char) : Bool :=
  strncmp kbuf "0".toList 1 = 0 || strncmp kbuf "stop".toList 4 = 0 ||
  strncmp kbuf "pause".toList 5 = 0

/-- The length used by `pmu_ctrl_write` for a write of `len` bytes
(`sizeof(kbuf)` is 16). -/
def ctrl_len (len : Nat) : Nat := if len ≥ 16 then 16 - 1 else len

/-- The content of `kbuf` after `copy_from_user` and `kbuf[len] = 0`. -/
def ctrl_kbuf (buf : List Char) : List Char :=
  buf.take (ctrl_len buf.length) ++ [NUL]

/-- The write handler of `/proc/pmu_control` for a write of the bytes `buf`
(`len` is `buf.length`); `copy_ok` says whether `copy_from_user` copies all
of them.  Returns the `ssize_t` result and the machine afterwards. -/
def pmu_ctrl_write (copy_ok : Bool) (buf : List Char) (m : Machine) : Int × Machine :=
  let len := ctrl_len buf.length
  if !copy_ok then (-EFAULT, m)
  else
    let kbuf := ctrl_kbuf buf
    if is_start_cmd kbuf then ((len : Int), pmu_start_all_cpus m)
    else if is_stop_cmd kbuf then ((len : Int), pmu_stop_all_cpus m)
    else (-EINVAL, m)

/-! ## `/proc/pmu_stats` -/

/-- The callback `pmu_collect_cpu(void *info)`: store the local snapshot in
the entry of the running CPU. -/
def pmu_collect_cpu (per_cpu_counts : List pmu_counts) (cpu : Nat) (c : Core) :
    List pmu_counts × Core :=
  let r := pmu_read_local c
  (per_cpu_counts.set cpu r.1, r.2)

def pmu_counts.zero : pmu_counts :=
  { instructions := 0, l1i_ref := 0, l1i_miss := 0, l1d_ref := 0, l1d_miss := 0,
    llc_miss := 0, cycles := 0 }

/-- One iteration of the summation loop of `pmu_proc_show` (`u64` additions). -/
def total_add (total e : pmu_counts) : pmu_counts :=
  { instructions := (total.instructions + e.instructions) % U64
    l1i_ref := (total.l1i_ref + e.l1i_ref) % U64
    l1i_miss := (total.l1i_miss + e.l1i_miss) % U64
    l1d_ref := (total.l1d_ref + e.l1d_ref) % U64
    l1d_miss := (total.l1d_miss + e.l1d_miss) % U64
    llc_miss := (total.llc_miss + e.llc_miss) % U64
    cycles := (total.cycles + e.cycles) % U64 }

/-- The loop `for_each_online_cpu(cpu) total += per_cpu_counts[cpu]`, from CPU
id `cpu` on. -/
def sum_online_from (per_cpu_counts : List pmu_counts) :
    Nat → List Cpu → pmu_counts → pmu_counts
  | _, [], total => total
  | cpu, c :: cs, total =>
    if c.online then
      sum_online_from per_cpu_counts (cpu + 1) cs
        (total_add total (per_cpu_counts.getD cpu pmu_counts.zero))
    else sum_online_from per_cpu_counts (cpu + 1) cs total

def digit_char : Nat → Char
  | 0 => '0' | 1 => '1' | 2 => '2' | 3 => '3' | 4 => '4'
  | 5 => '5' | 6 => '6' | 7 => '7' | 8 => '8' | _ => '9'

/-- The decimal digits of `n` put in front of `acc`, least significant digit
first, as the kernel's number formatting does (at most `fuel` digits). -/
def put_dec : Nat → Nat → List Char → List Char
  | 0, _, acc => acc
  | fuel + 1, n, acc =>
    if n / 10 = 0 then digit_char (n % 10) :: acc
    else put_dec fuel (n / 10) (digit_char (n % 10) :: acc)

/-- The text of a `%llu` conversion (a `u64` has at most 20 digits). -/
def fmt_llu (v : Nat) : List Char := put_dec 20 (v % U64) []

/-- The call `seq_printf(m, "<key>%llu\n", v)`. -/
def seq_printf_llu (m : List Char) (key : String) (v : Nat) : List Char :=
  m ++ key.toList ++ fmt_llu v ++ ['\n']

/-- The call `seq_printf(m, "<key>%s\n", s)`. -/
def seq_printf_s (m : List Char) (key : String) (s : String) : List Char :=
  m ++ key.toList ++ s.toList ++ ['\n']

/-- The eight `seq_printf` calls of `pmu_proc_show`. -/
def show_text (total : pmu_counts) (st : PmuState) : List Char :=
  let m : List Char := []
  let m := seq_printf_llu m "instructions: " total.instructions
  let m := seq_printf_llu m "l1i_references: " total.l1i_ref
  let m := seq_printf_llu m "l1i_misses: " total.l1i_miss
  let m := seq_printf_llu m "l1d_references: " total.l1d_ref
  let m := seq_printf_llu m "l1d_misses: " total.l1d_miss
  let m := seq_printf_llu m "llc_misses: " total.llc_miss
  let m := seq_printf_llu m "cycles: " total.cycles
  seq_printf_s m "state: " (if st = PmuState.PMU_RUNNING then "running" else "stopped")

/-- The totals computed by `pmu_proc_show` and the CPUs after the collection
pass. -/
def collect_totals (m : Machine) : pmu_counts × List Cpu :=
  let per_cpu_counts := List.replicate (nr_cpu_ids m) pmu_counts.zero
  let r := on_each_cpu pmu_collect_cpu per_cpu_counts m.cpus
  (sum_online_from r.1 0 r.2 pmu_counts.zero, r.2)

/-- The show handler of `/proc/pmu_stats`; `alloc_ok` says whether `kcalloc`
succeeds.  Returns the result, the text written and the machine afterwards. -/
def pmu_proc_show (alloc_ok : Bool) (m : Machine) : Int × List Char × Machine :=
  if !alloc_ok then (-ENOMEM, [], m)
  else
    let r := collect_totals m
    (0, show_text r.1 m.pmu_state, { m with cpus := r.2 })

/-! ## Module init -/

/-- The static initialiser `pmu_state = PMU_STOPPED`: the machine when the
module image is in place and `pmu_init` has not run yet. -/
def module_image (cpus : List Cpu) : Machine :=
  { cpus := cpus, pmu_state := PmuState.PMU_STOPPED }

/-- The module entry `pmu_init`; `stats_ok` and `ctrl_ok` say whether the two
`proc_create` calls return an entry.  Returns the result and the machine
afterwards. -/
def pmu_init (stats_ok ctrl_ok : Bool) (m : Machine) : Int × Machine :=
  let m := pmu_start_all_cpus m
  if !stats_ok then (-ENOMEM, pmu_stop_all_cpus m)
  else if !ctrl_ok then (-ENOMEM, pmu_stop_all_cpus m)
  else (0, m)

/-! ## The client's `pmu_read_stats` (part4_matrix.c, part4_random_access.c) -/

structure pmu_stats where
  instructions : Nat
  l1i_ref : Nat
  l1i_miss : Nat
  l1d_ref : Nat
  l1d_miss : Nat
  llc_miss : Nat
  cycles : Nat
  deriving DecidableEq

/-- The libc `isspace` in the C locale. -/
def isspace (c : Char) : Bool :=
  c = ' ' || c = '\t' || c = '\n' || c = '\x0b' || c = '\x0c' || c = '\r'

def skip_ws : List Char → List Char
  | [] => []
  | c :: cs => if isspace c then skip_ws cs else c :: cs

/-- Read decimal digits, accumulating their value. -/
def scan_digits (acc : Nat) : List Char → Nat × List Char
  | [] => (acc, [])
  | c :: cs =>
    if c.isDigit then scan_digits (acc * 10 + (c.toNat - '0'.toNat)) cs
    else (acc, c :: cs)

/-- The value stored by `%llu` for the digits read: as `strtoull`, clamped to
`ULLONG_MAX` on overflow and negated modulo `2^64` after a minus sign. -/
def llu_value (neg : Bool) (n : Nat) : Nat :=
  if n ≥ U64 then U64 - 1 else if neg then (U64 - n) % U64 else n

/-- The `%llu` conversion on input whose leading white space is skipped: an
optional sign and at least one digit, or a matching failure. -/
def conv_llu : List Char → Option (Nat × List Char)
  | [] => none
  | c :: cs =>
    let neg := decide (c = '-')
    let body := if c = '-' ∨ c = '+' then cs else c :: cs
    match body with
    | [] => none
    | d :: _ =>
      if d.isDigit then
        let r := scan_digits 0 body
        some (llu_value neg r.1, r.2)
      else none

/-- The directives of a `scanf` format. -/
inductive Directive where
  | ws
  | lit (c : Char)
  | llu
  deriving DecidableEq

/-- Split a format into directives.  Only the conversion `%llu` is known: the
format of `pmu_read_stats` has no other. -/
def parse_format : List Char → List Directive
  | [] => []
  | '%' :: 'l' :: 'l' :: 'u' :: fmt => Directive.llu :: parse_format fmt
  | c :: fmt => (if isspace c then Directive.ws else Directive.lit c) :: parse_format fmt

/-- Run the directives on the input: the return value of `sscanf` (the number
of conversions stored, or `EOF = -1` when the input ends before the first
one) and the values stored, in order. -/
def run_scan : List Directive → List Char → List Nat → Int × List Nat
  | [], _, out => ((out.length : Int), out)
  | Directive.ws :: ds, inp, out => run_scan ds (skip_ws inp) out
  | Directive.lit c :: ds, inp, out =>
    match inp with
    | [] => (if out.isEmpty then -1 else (out.length : Int), out)
    | x :: rest => if x = c then run_scan ds rest out else ((out.length : Int), out)
  | Directive.llu :: ds, inp, out =>
    match conv_llu (skip_ws inp) with
    | some (v, rest) => run_scan ds rest (out ++ [v])
    | none =>
      (if (skip_ws inp).isEmpty && out.isEmpty then -1 else (out.length : Int), out)

/-- The libc `sscanf(buf, fmt, ...)` for a C string `buf`. -/
def sscanf (buf fmt : List Char) : Int × List Nat :=
  run_scan (parse_format fmt) (buf.takeWhile (fun c => c ≠ NUL)) []

/-- The format of `pmu_read_stats` (the concatenated string literals). -/
def stats_format : List Char :=
  ("instructions: %llu\n" ++ "l1i_references: %llu\n" ++ "l1i_misses: %llu\n" ++
   "l1d_references: %llu\n" ++ "l1d_misses: %llu\n" ++ "llc_misses: %llu\n" ++
   "cycles: %llu").toList

/-- Store the converted values through the seven pointer arguments. -/
def store_stats (s : pmu_stats) (vals : List Nat) : pmu_stats :=
  { instructions := vals.getD 0 s.instructions
    l1i_ref := vals.getD 1 s.l1i_ref
    l1i_miss := vals.getD 2 s.l1i_miss
    l1d_ref := vals.getD 3 s.l1d_ref
    l1d_miss := vals.getD 4 s.l1d_miss
    llc_miss := vals.getD 5 s.llc_miss
    cycles := vals.getD 6 s.cycles }

/-- The client's `pmu_read_stats(s)` when `/proc/pmu_stats` opens and holds
`file`: one `read` of at most `sizeof(buf) - 1 = 511` bytes, then `sscanf`.
Returns the result and `*s` afterwards. -/
def pmu_read_stats (file : List Char) (s : pmu_stats) : Int × pmu_stats :=
  let buf := file.take (512 - 1)
  let n := buf.length
  if n = 0 then (-1, s)
  else
    let r := sscanf (buf ++ [NUL]) stats_format
    if r.1 ≠ 7 then (-1, store_stats s r.2)
    else (0, store_stats s r.2)

/-! ## Definitions used to state the properties -/

/-- The words that select `start`. -/
def start_words : List (List Char) := ["start".toList, "1".toList, "reset".toList]

/-- The words that select `stop`. -/
def stop_words : List (List Char) := ["stop".toList, "0".toList, "pause".toList]

/-- The input is one of the six words, ended by the end of the input or
followed by a white-space character. -/
def recognized_cmd (buf : List Char) : Bool :=
  (start_words ++ stop_words).any (fun w =>
    w.isPrefixOf buf &&
      (match buf.drop w.length with
       | [] => true
       | c :: _ => isspace c))

/-- Apply a sequence of control writes, in order. -/
def run_writes : List (List Char) → Machine → Machine
  | [], m => m
  | w :: ws, m => run_writes ws (pmu_ctrl_write true w m).2

/-- A core with six event slots, all registers zero, and no write so far. -/
def example_core : Core :=
  { regs := { pmselr := 0, evtyper := [0, 0, 0, 0, 0, 0], evcntr := [0, 0, 0, 0, 0, 0],
              pmccntr := 0, pmcr := 0, pmcnten := 0, pmovs := 0 },
    trace := [] }

/-- A core that has counted: slots enabled and counters non-zero. -/
def busy_core : Core :=
  { regs := { pmselr := 3, evtyper := [8, 20, 1, 4, 3, 23],
              evcntr := [1000, 200, 30, 400, 50, 6], pmccntr := 123456, pmcr := 1,
              pmcnten := 0x8000003F, pmovs := 1 },
    trace := [] }

/-- Four possible CPUs, CPU 2 offline, collection stopped. -/
def example_machine : Machine :=
  { cpus := [⟨true, busy_core⟩, ⟨true, example_core⟩, ⟨false, busy_core⟩, ⟨true, busy_core⟩],
    pmu_state := PmuState.PMU_STOPPED }

/-- The snapshot of a core as the claim describes it: the six event counters
and the cycle counter, each as a `u64`. -/
def core_snapshot (c : Core) : pmu_counts :=
  { instructions := c.regs.evcntr.getD 0 0 % U64
    l1i_ref := c.regs.evcntr.getD 1 0 % U64
    l1i_miss := c.regs.evcntr.getD 2 0 % U64
    l1d_ref := c.regs.evcntr.getD 3 0 % U64
    l1d_miss := c.regs.evcntr.getD 4 0 % U64
    llc_miss := c.regs.evcntr.getD 5 0 % U64
    cycles := c.regs.pmccntr % U64 }

/-- The snapshots of the online CPUs, in CPU order. -/
def online_snapshots (cpus : List Cpu) : List pmu_counts :=
  (cpus.filter (fun c => c.online)).map (fun c => core_snapshot c.core)

/-- The sum of one field over a list of snapshots, in `u64` arithmetic. -/
def u64_sum (f : pmu_counts → Nat) (l : List pmu_counts) : Nat := (l.map f).sum % U64

/-- The totals over the online CPUs, field by field. -/
def online_total (cpus : List Cpu) : pmu_counts :=
  { instructions := u64_sum (fun e => e.instructions) (online_snapshots cpus)
    l1i_ref := u64_sum (fun e => e.l1i_ref) (online_snapshots cpus)
    l1i_miss := u64_sum (fun e => e.l1i_miss) (online_snapshots cpus)
    l1d_ref := u64_sum (fun e => e.l1d_ref) (online_snapshots cpus)
    l1d_miss := u64_sum (fun e => e.l1d_miss) (online_snapshots cpus)
    llc_miss := u64_sum (fun e => e.llc_miss) (online_snapshots cpus)
    cycles := u64_sum (fun e => e.cycles) (online_snapshots cpus) }

/-- The register writes of `establish`, as the claim lists them. -/
def establish_writes : List Write :=
  [⟨Reg.PMCNTENCLR, 0x8000003F⟩, ⟨Reg.PMOVSCLR, 0xFFFFFFFF⟩, ⟨Reg.PMCR, 0x7⟩,
   ⟨Reg.PMSELR, 0⟩, ⟨Reg.PMXEVTYPER, 0x08⟩, ⟨Reg.PMXEVCNTR, 0⟩,
   ⟨Reg.PMSELR, 1⟩, ⟨Reg.PMXEVTYPER, 0x14⟩, ⟨Reg.PMXEVCNTR, 0⟩,
   ⟨Reg.PMSELR, 2⟩, ⟨Reg.PMXEVTYPER, 0x01⟩, ⟨Reg.PMXEVCNTR, 0⟩,
   ⟨Reg.PMSELR, 3⟩, ⟨Reg.PMXEVTYPER, 0x04⟩, ⟨Reg.PMXEVCNTR, 0⟩,
   ⟨Reg.PMSELR, 4⟩, ⟨Reg.PMXEVTYPER, 0x03⟩, ⟨Reg.PMXEVCNTR, 0⟩,
   ⟨Reg.PMSELR, 5⟩, ⟨Reg.PMXEVTYPER, 0x17⟩, ⟨Reg.PMXEVCNTR, 0⟩,
   ⟨Reg.PMCNTENSET, 0x8000003F⟩]

/-- The enable bits of slots 0..5 and of the cycle counter. -/
def enable_bits : List Nat := [0, 1, 2, 3, 4, 5, 31]

/-- The fields of a total are `u64` values. -/
def pmu_counts.bounded (t : pmu_counts) : Prop :=
  t.instructions < U64 ∧ t.l1i_ref < U64 ∧ t.l1i_miss < U64 ∧ t.l1d_ref < U64 ∧
  t.l1d_miss < U64 ∧ t.llc_miss < U64 ∧ t.cycles < U64

/-- Field by field, the counts `a` are at most the counts `b`. -/
def counts_le (a b : pmu_counts) : Prop :=
  a.instructions ≤ b.instructions ∧ a.l1i_ref ≤ b.l1i_ref ∧ a.l1i_miss ≤ b.l1i_miss ∧
  a.l1d_ref ≤ b.l1d_ref ∧ a.l1d_miss ≤ b.l1d_miss ∧ a.llc_miss ≤ b.llc_miss ∧
  a.cycles ≤ b.cycles

/-- Between two passes no core's counter value has decreased: the machines
have the same CPUs and the snapshot of each core in the second is field by
field at least its snapshot in the first. -/
def no_counter_decreased (m1 m2 : Machine) : Prop :=
  List.Forall₂ (fun c1 c2 => counts_le (core_snapshot c1.core) (core_snapshot c2.core))
    m1.cpus m2.cpus

/-- Every CPU that is online in the first pass is online in the second. -/
def online_kept (m1 m2 : Machine) : Prop :=
  List.Forall₂ (fun c1 c2 => c1.online = true → c2.online = true) m1.cpus m2.cpus

/-- The sums of the fields over a list of snapshots, without reduction. -/
def raw_sum (l : List pmu_counts) : pmu_counts :=
  { instructions := (l.map (fun e => e.instructions)).sum
    l1i_ref := (l.map (fun e => e.l1i_ref)).sum
    l1i_miss := (l.map (fun e => e.l1i_miss)).sum
    l1d_ref := (l.map (fun e => e.l1d_ref)).sum
    l1d_miss := (l.map (fun e => e.l1d_miss)).sum
    llc_miss := (l.map (fun e => e.llc_miss)).sum
    cycles := (l.map (fun e => e.cycles)).sum }

/-- A core whose cycle counter holds `cycles`, the event counters zero. -/
def core_with_cycles (cycles : Nat) : Core :=
  { regs := { pmselr := 0, evtyper := [8, 20, 1, 4, 3, 23], evcntr := [0, 0, 0, 0, 0, 0],
              pmccntr := cycles, pmcr := 1, pmcnten := 0x8000003F, pmovs := 0 },
    trace := [] }

/-- Two online CPUs whose cycle counters add up to `2^64 - 1`. -/
def wrap_before : Machine :=
  { cpus := [⟨true, core_with_cycles (2 ^ 63)⟩, ⟨true, core_with_cycles (2 ^ 63 - 1)⟩],
    pmu_state := PmuState.PMU_RUNNING }

/-- The same machine one cycle later on CPU 1. -/
def wrap_after : Machine :=
  { cpus := [⟨true, core_with_cycles (2 ^ 63)⟩, ⟨true, core_with_cycles (2 ^ 63)⟩],
    pmu_state := PmuState.PMU_RUNNING }

/-- Two online CPUs with small cycle counts. -/
def unplug_before : Machine :=
  { cpus := [⟨true, core_with_cycles 1000⟩, ⟨true, core_with_cycles 500⟩],
    pmu_state := PmuState.PMU_RUNNING }

/-- The same machine later, CPU 1 now offline, no counter lower than before. -/
def unplug_after : Machine :=
  { cpus := [⟨true, core_with_cycles 1200⟩, ⟨false, core_with_cycles 500⟩],
    pmu_state := PmuState.PMU_RUNNING }

/-! ## Lemmas on `strncmp` and `on_each_cpu` -/

theorem char_diff_eq_zero (a b : Char) : ((a.toNat : Int) - (b.toNat : Int) = 0) ↔ a = b := by
  constructor
  · intro h
    have h1 : a.toNat = b.toNat := by omega
    have h2 := congrArg Char.ofNat h1
    simpa using h2
  · intro h
    subst h
    omega

/-- Against a word without NUL, `strncmp` over the length of the word is a
prefix test. -/
theorem strncmp_eq_zero_iff (w : List Char) (hw : NUL ∉ w) (b : List Char) :
    strncmp (b ++ [NUL]) w w.length = 0 ↔ w <+: b := by
  induction w generalizing b with
  | nil => simp [strncmp]
  | cons x w ih =>
    have hx : x ≠ NUL := fun h => hw (by simp [h])
    have hw2 : NUL ∉ w := fun h => hw (by simp [h])
    cases b with
    | nil =>
      have hx2 : ¬ NUL = x := fun h => hx h.symm
      simp [strncmp, hx2, char_diff_eq_zero]
    | cons y b =>
      by_cases hyx : y = x
      · subst hyx
        simp [strncmp, hx, ih hw2 b]
      · have hxy : ¬ x = y := fun h => hyx h.symm
        simp [strncmp, hyx, hxy, char_diff_eq_zero, List.cons_prefix_cons]

theorem is_start_cmd_iff (b : List Char) :
    is_start_cmd (b ++ [NUL]) = true ↔ ∃ w ∈ start_words, w <+: b := by
  have h1 := strncmp_eq_zero_iff "1".toList (by decide) b
  have h2 := strncmp_eq_zero_iff "start".toList (by decide) b
  have h3 := strncmp_eq_zero_iff "reset".toList (by decide) b
  simp only [String.toList, List.length_cons, List.length_nil] at h1 h2 h3
  simp only [is_start_cmd, start_words, String.toList, Bool.or_eq_true, decide_eq_true_eq,
    List.mem_cons, List.mem_singleton, exists_eq_or_imp, exists_eq_left, h1, h2, h3,
    List.not_mem_nil, false_and, exists_false, or_false]
  tauto

theorem is_stop_cmd_iff (b : List Char) :
    is_stop_cmd (b ++ [NUL]) = true ↔ ∃ w ∈ stop_words, w <+: b := by
  have h1 := strncmp_eq_zero_iff "0".toList (by decide) b
  have h2 := strncmp_eq_zero_iff "stop".toList (by decide) b
  have h3 := strncmp_eq_zero_iff "pause".toList (by decide) b
  simp only [String.toList, List.length_cons, List.length_nil] at h1 h2 h3
  simp only [is_stop_cmd, stop_words, String.toList, Bool.or_eq_true, decide_eq_true_eq,
    List.mem_cons, List.mem_singleton, exists_eq_or_imp, exists_eq_left, h1, h2, h3,
    List.not_mem_nil, false_and, exists_false, or_false]
  tauto

/-- When the callback's effect on the core ignores `info` and the CPU id,
`on_each_cpu` applies it to the core of every online CPU and leaves the
others alone. -/
theorem on_each_cpu_from_cores {α : Type} (func : α → Nat → Core → α × Core)
    (g : Core → Core) (hg : ∀ a n c, (func a n c).2 = g c) (cpu : Nat) (info : α)
    (cpus : List Cpu) :
    (on_each_cpu_from func cpu info cpus).2 =
      cpus.map (fun c => if c.online then { c with core := g c.core } else c) := by
  induction cpus generalizing cpu info with
  | nil => simp [on_each_cpu_from]
  | cons c cs ih =>
    by_cases h : c.online = true
    · simp [on_each_cpu_from, h, hg, ih]
    · simp [on_each_cpu_from, h, ih]

theorem start_cpus (m : Machine) :
    (pmu_start_all_cpus m).cpus =
      m.cpus.map (fun c => if c.online then { c with core := pmu_reset_cpu c.core } else c) :=
  on_each_cpu_from_cores pmu_reset_cpu_cb pmu_reset_cpu (fun _ _ _ => rfl) 0 () m.cpus

theorem stop_cpus (m : Machine) :
    (pmu_stop_all_cpus m).cpus =
      m.cpus.map (fun c => if c.online then { c with core := pmu_disable_cpu c.core } else c) :=
  on_each_cpu_from_cores pmu_disable_cpu_cb pmu_disable_cpu (fun _ _ _ => rfl) 0 () m.cpus

theorem ctrl_write_of_start (buf : List Char) (m : Machine)
    (h : is_start_cmd (ctrl_kbuf buf) = true) :
    pmu_ctrl_write true buf m = ((ctrl_len buf.length : Int), pmu_start_all_cpus m) := by
  simp [pmu_ctrl_write, h]

theorem ctrl_write_of_stop (buf : List Char) (m : Machine)
    (h1 : is_start_cmd (ctrl_kbuf buf) = false) (h2 : is_stop_cmd (ctrl_kbuf buf) = true) :
    pmu_ctrl_write true buf m = ((ctrl_len buf.length : Int), pmu_stop_all_cpus m) := by
  simp [pmu_ctrl_write, h1, h2]

/-! ## The control interface -/

/-- C1: each of the six command words, alone or followed by one newline, is
accepted by `pmu_ctrl_write` from every machine state, the result is the
number of bytes written, `start`, `1` and `reset` run `pmu_start_all_cpus`
and `stop`, `0` and `pause` run `pmu_stop_all_cpus`; these run
`pmu_reset_cpu`, respectively `pmu_disable_cpu`, on the core of every online
CPU. -/
theorem c1_command_words_accepted (m : Machine) (w nl : List Char)
    (hnl : nl = [] ∨ nl = ['\n']) :
    (w ∈ start_words →
      pmu_ctrl_write true (w ++ nl) m = (((w ++ nl).length : Int), pmu_start_all_cpus m)) ∧
    (w ∈ stop_words →
      pmu_ctrl_write true (w ++ nl) m = (((w ++ nl).length : Int), pmu_stop_all_cpus m)) ∧
    (pmu_start_all_cpus m).cpus =
      m.cpus.map (fun c => if c.online then { c with core := pmu_reset_cpu c.core } else c) ∧
    (pmu_stop_all_cpus m).cpus =
      m.cpus.map (fun c => if c.online then { c with core := pmu_disable_cpu c.core } else c) := by
  refine ⟨?_, ?_, start_cpus m, stop_cpus m⟩
  · intro hw
    simp only [start_words, List.mem_cons, List.mem_singleton, List.not_mem_nil, or_false] at hw
    rcases hw with rfl | rfl | rfl <;> rcases hnl with rfl | rfl <;>
      exact ctrl_write_of_start _ m (by decide)
  · intro hw
    simp only [stop_words, List.mem_cons, List.mem_singleton, List.not_mem_nil, or_false] at hw
    rcases hw with rfl | rfl | rfl <;> rcases hnl with rfl | rfl <;>
      exact ctrl_write_of_stop _ m (by decide) (by decide)

theorem c1_command_words_accepted_witness :
    (['\n'] = ([] : List Char) ∨ ['\n'] = ['\n']) ∧ "start".toList ∈ start_words ∧
    pmu_ctrl_write true ("start".toList ++ ['\n']) example_machine =
      ((("start".toList ++ ['\n']).length : Int), pmu_start_all_cpus example_machine) :=
  ⟨Or.inr rfl, by decide,
    (c1_command_words_accepted example_machine "start".toList ['\n'] (Or.inr rfl)).1
      (by decide)⟩

/-- C2, as stated, fails: the nine bytes `stopwatch` are not a recognized
word ended by the end of the input or by white space, and the write is
accepted (it returns 9 and stops the counters) instead of being rejected. -/
theorem c2_unterminated_word_accepted :
    "stopwatch".toList.length ≤ 15 ∧ recognized_cmd "stopwatch".toList = false ∧
    pmu_ctrl_write true "stopwatch".toList example_machine =
      (9, pmu_stop_all_cpus example_machine) ∧
    (pmu_ctrl_write true "stopwatch".toList example_machine).1 ≠ -EINVAL := by
  have h : pmu_ctrl_write true "stopwatch".toList example_machine =
      (9, pmu_stop_all_cpus example_machine) :=
    ctrl_write_of_stop _ _ (by decide) (by decide)
  refine ⟨by decide, by decide, h, ?_⟩
  rw [h]
  decide

/-- C2, amended: for an input of at most 15 bytes, `pmu_ctrl_write` returns
`-EINVAL` exactly when the input begins with none of the six words (a
byte-wise, case-sensitive prefix test; nothing is required after the word). -/
theorem c2_rejects_iff_no_word_begins (buf : List Char) (m : Machine)
    (hlen : buf.length ≤ 15) :
    (pmu_ctrl_write true buf m).1 = -EINVAL ↔
      ∀ w ∈ start_words ++ stop_words, ¬ w <+: buf := by
  have hk : ctrl_kbuf buf = buf ++ [NUL] := by
    have h16 : ¬ buf.length ≥ 16 := by omega
    simp [ctrl_kbuf, ctrl_len, h16]
  have hs := is_start_cmd_iff buf
  have ht := is_stop_cmd_iff buf
  rw [← hk] at hs ht
  have hneg : ∀ n : Nat, ¬ ((n : Int) = -EINVAL) := by
    intro n h
    simp only [EINVAL] at h
    omega
  by_cases h1 : is_start_cmd (ctrl_kbuf buf) = true
  · have := hs.mp h1
    obtain ⟨w, hw, hp⟩ := this
    simp only [pmu_ctrl_write, h1, Bool.not_true, Bool.false_eq_true, if_false, if_true]
    constructor
    · intro h
      exact absurd h (hneg _)
    · intro h
      exact absurd hp (h w (List.mem_append_left _ hw))
  · by_cases h2 : is_stop_cmd (ctrl_kbuf buf) = true
    · obtain ⟨w, hw, hp⟩ := ht.mp h2
      simp only [pmu_ctrl_write, h1, h2, Bool.not_true, Bool.false_eq_true, if_false, if_true]
      constructor
      · intro h
        exact absurd h (hneg _)
      · intro h
        exact absurd hp (h w (List.mem_append_right _ hw))
    · simp only [pmu_ctrl_write, h1, h2, Bool.not_true, Bool.false_eq_true, if_false,
        true_iff]
      intro w hw hp
      rcases List.mem_append.mp hw with hw | hw
      · exact h1 (hs.mpr ⟨w, hw, hp⟩)
      · exact h2 (ht.mpr ⟨w, hw, hp⟩)

theorem c2_rejects_iff_no_word_begins_witness :
    (pmu_ctrl_write true "Start\n".toList example_machine).1 = -EINVAL ↔
      ∀ w ∈ start_words ++ stop_words, ¬ w <+: "Start\n".toList :=
  c2_rejects_iff_no_word_begins "Start\n".toList example_machine (by decide)

/-- C3: when `pmu_ctrl_write` returns `-EINVAL` the machine is unchanged
(`pmu_state` and every core, its write history included, so that no per-CPU
action ran), the report that follows is the one that would have been
produced before, and `frobnicate` is such an input. -/
theorem c3_invalid_command_no_effect (copy_ok alloc_ok : Bool) (buf : List Char) (m : Machine)
    (h : (pmu_ctrl_write copy_ok buf m).1 = -EINVAL) :
    (pmu_ctrl_write copy_ok buf m).2 = m ∧
    (pmu_ctrl_write copy_ok buf m).2.pmu_state = m.pmu_state ∧
    (∀ i, ((pmu_ctrl_write copy_ok buf m).2.cpus.map (fun c => c.core.trace)).getD i [] =
      (m.cpus.map (fun c => c.core.trace)).getD i []) ∧
    pmu_proc_show alloc_ok (pmu_ctrl_write copy_ok buf m).2 = pmu_proc_show alloc_ok m ∧
    (pmu_ctrl_write true "frobnicate".toList m).1 = -EINVAL := by
  have hfrob : (pmu_ctrl_write true "frobnicate".toList m).1 = -EINVAL := by
    have h1 : is_start_cmd (ctrl_kbuf "frobnicate".toList) = false := by decide
    have h2 : is_stop_cmd (ctrl_kbuf "frobnicate".toList) = false := by decide
    simp only [pmu_ctrl_write, h1, h2, Bool.not_true, Bool.false_eq_true, if_false]
  have hm : (pmu_ctrl_write copy_ok buf m).2 = m := by
    have hneg : ∀ n : Nat, ¬ ((n : Int) = -EINVAL) := by
      intro n h
      simp only [EINVAL] at h
      omega
    unfold pmu_ctrl_write at h ⊢
    by_cases hc : copy_ok = true
    · by_cases h1 : is_start_cmd (ctrl_kbuf buf) = true
      · simp only [hc, h1, Bool.not_true, Bool.false_eq_true, if_false, if_true] at h
        exact absurd h (hneg _)
      · by_cases h2 : is_stop_cmd (ctrl_kbuf buf) = true
        · simp only [hc, h1, h2, Bool.not_true, Bool.false_eq_true, if_false, if_true] at h
          exact absurd h (hneg _)
        · simp [hc, h1, h2]
    · simp [hc]
  rw [hm]
  exact ⟨rfl, rfl, fun _ => rfl, rfl, hfrob⟩

theorem c3_invalid_command_no_effect_witness :
    (pmu_ctrl_write true "frobnicate".toList example_machine).2 = example_machine ∧
    (pmu_ctrl_write true "frobnicate".toList example_machine).2.pmu_state =
      example_machine.pmu_state ∧
    (∀ i, ((pmu_ctrl_write true "frobnicate".toList example_machine).2.cpus.map
        (fun c => c.core.trace)).getD i [] =
      (example_machine.cpus.map (fun c => c.core.trace)).getD i []) ∧
    pmu_proc_show true (pmu_ctrl_write true "frobnicate".toList example_machine).2 =
      pmu_proc_show true example_machine ∧
    (pmu_ctrl_write true "frobnicate".toList example_machine).1 = -EINVAL :=
  c3_invalid_command_no_effect true true "frobnicate".toList example_machine (by decide)

/-- C4: a write of 16 bytes or more is not rejected for its length: its
result and its effect on the machine are those of the write of its first 15
bytes, and when it is accepted the result is 15. -/
theorem c4_long_input_truncated (copy_ok : Bool) (buf : List Char) (m : Machine)
    (hlen : 16 ≤ buf.length) :
    pmu_ctrl_write copy_ok buf m = pmu_ctrl_write copy_ok (buf.take 15) m ∧
    (0 ≤ (pmu_ctrl_write copy_ok buf m).1 → (pmu_ctrl_write copy_ok buf m).1 = 15) := by
  have hl : ctrl_len buf.length = 15 := by simp [ctrl_len, hlen]
  have hl2 : ctrl_len (buf.take 15).length = 15 := by
    have : (buf.take 15).length = 15 := by simp [List.length_take]; omega
    simp [ctrl_len, this]
  have hk : ctrl_kbuf (buf.take 15) = ctrl_kbuf buf := by
    simp only [ctrl_kbuf, hl, hl2, List.take_take, min_self]
  constructor
  · simp only [pmu_ctrl_write, hl, hl2, hk]
  · unfold pmu_ctrl_write
    rw [hl]
    by_cases hc : copy_ok = true
    · by_cases h1 : is_start_cmd (ctrl_kbuf buf) = true
      · simp [hc, h1]
      · by_cases h2 : is_stop_cmd (ctrl_kbuf buf) = true
        · simp [hc, h1, h2]
        · simp [hc, h1, h2, EINVAL]
    · simp [hc, EFAULT]

theorem c4_long_input_truncated_witness :
    pmu_ctrl_write true "reset all the counters".toList example_machine =
      pmu_ctrl_write true ("reset all the counters".toList.take 15) example_machine ∧
    (0 ≤ (pmu_ctrl_write true "reset all the counters".toList example_machine).1 →
      (pmu_ctrl_write true "reset all the counters".toList example_machine).1 = 15) :=
  c4_long_input_truncated true "reset all the counters".toList example_machine (by decide)

/-! ## The state line -/

theorem show_text_state_suffix (total : pmu_counts) (st : PmuState) :
    ("state: ".toList ++
      (if st = PmuState.PMU_RUNNING then "running" else "stopped").toList ++ ['\n'])
      <:+ show_text total st := by
  simp only [show_text, seq_printf_s, List.append_assoc]
  exact List.suffix_append _ _

theorem proc_show_state_line (m : Machine) :
    ("state: ".toList ++
      (if m.pmu_state = PmuState.PMU_RUNNING then "running" else "stopped").toList ++ ['\n'])
      <:+ (pmu_proc_show true m).2.1 := by
  simp only [pmu_proc_show, Bool.not_true, Bool.false_eq_true, if_false]
  exact show_text_state_suffix _ _

/-- C5: after any sequence of control writes, when the last write is
accepted as a start the report that follows ends with the line
`state: running`, and when it is accepted as a stop the report ends with
`state: stopped`, whatever the state was before. -/
theorem c5_state_line_follows_last_command (m : Machine) (ws : List (List Char))
    (w : List Char) :
    (is_start_cmd (ctrl_kbuf w) = true →
      "state: running\n".toList <:+
        (pmu_proc_show true (run_writes (ws ++ [w]) m)).2.1) ∧
    (is_start_cmd (ctrl_kbuf w) = false → is_stop_cmd (ctrl_kbuf w) = true →
      "state: stopped\n".toList <:+
        (pmu_proc_show true (run_writes (ws ++ [w]) m)).2.1) := by
  have hrun : ∀ (l : List (List Char)) (m0 : Machine),
      run_writes (l ++ [w]) m0 = (pmu_ctrl_write true w (run_writes l m0)).2 := by
    intro l
    induction l with
    | nil => intro m0; rfl
    | cons x xs ih =>
      intro m0
      show run_writes (xs ++ [w]) (pmu_ctrl_write true x m0).2 = _
      rw [ih]
      rfl
  rw [hrun]
  constructor
  · intro h
    have hs := proc_show_state_line (pmu_ctrl_write true w (run_writes ws m)).2
    rw [ctrl_write_of_start w _ h] at hs ⊢
    simpa [pmu_start_all_cpus] using hs
  · intro h1 h2
    have hs := proc_show_state_line (pmu_ctrl_write true w (run_writes ws m)).2
    rw [ctrl_write_of_stop w _ h1 h2] at hs ⊢
    simpa [pmu_stop_all_cpus] using hs

theorem c5_state_line_follows_last_command_witness :
    is_start_cmd (ctrl_kbuf "stop\n".toList) = false ∧
    is_stop_cmd (ctrl_kbuf "stop\n".toList) = true ∧
    "state: stopped\n".toList <:+
      (pmu_proc_show true
        (run_writes (["start\n".toList, "1".toList] ++ ["stop\n".toList])
          example_machine)).2.1 :=
  ⟨by decide, by decide,
    (c5_state_line_follows_last_command example_machine ["start\n".toList, "1".toList]
      "stop\n".toList).2 (by decide) (by decide)⟩

/-! ## Aggregation -/

theorem pmu_read_local_counts (c : Core) : (pmu_read_local c).1 = core_snapshot c := rfl

theorem collect_length (cpus : List Cpu) (cpu : Nat) (arr : List pmu_counts) :
    (on_each_cpu_from pmu_collect_cpu cpu arr cpus).1.length = arr.length := by
  induction cpus generalizing cpu arr with
  | nil => simp [on_each_cpu_from]
  | cons c cs ih =>
    by_cases h : c.online = true
    · simp [on_each_cpu_from, h, ih, pmu_collect_cpu]
    · simp [on_each_cpu_from, h, ih]

/-- The collection pass from CPU id `cpu` on leaves the entries below `cpu`
alone. -/
theorem collect_frame (cpus : List Cpu) (cpu : Nat) (arr : List pmu_counts) (j : Nat)
    (hj : j < cpu) (d : pmu_counts) :
    (on_each_cpu_from pmu_collect_cpu cpu arr cpus).1.getD j d = arr.getD j d := by
  induction cpus generalizing cpu arr with
  | nil => simp [on_each_cpu_from]
  | cons c cs ih =>
    by_cases h : c.online = true
    · have hne : cpu ≠ j := by omega
      simp only [on_each_cpu_from, h, if_true]
      rw [ih (cpu + 1) _ (by omega)]
      simp [pmu_collect_cpu, List.getD_eq_getElem?_getD, List.getElem?_set_ne hne]
    · simp only [on_each_cpu_from, h]
      exact ih (cpu + 1) _ (by omega)

/-- The collection pass followed by the summation loop adds up the snapshots
of the online CPUs. -/
theorem sum_after_collect (cpus : List Cpu) (cpu : Nat) (arr : List pmu_counts)
    (total : pmu_counts) (hlen : cpu + cpus.length ≤ arr.length) :
    sum_online_from (on_each_cpu_from pmu_collect_cpu cpu arr cpus).1 cpu
        (on_each_cpu_from pmu_collect_cpu cpu arr cpus).2 total =
      (online_snapshots cpus).foldl total_add total := by
  induction cpus generalizing cpu arr total with
  | nil => simp [on_each_cpu_from, sum_online_from, online_snapshots]
  | cons c cs ih =>
    simp only [List.length_cons] at hlen
    by_cases h : c.online = true
    · have hget : (on_each_cpu_from pmu_collect_cpu (cpu + 1)
            (pmu_collect_cpu arr cpu c.core).1 cs).1.getD cpu pmu_counts.zero =
          core_snapshot c.core := by
        rw [collect_frame cs (cpu + 1) _ cpu (by omega)]
        have hlt : cpu < arr.length := by omega
        simp [pmu_collect_cpu, List.getD_eq_getElem?_getD, hlt, pmu_read_local_counts]
      have hlen2 : cpu + 1 + cs.length ≤ (pmu_collect_cpu arr cpu c.core).1.length := by
        simp [pmu_collect_cpu]
        omega
      simp only [on_each_cpu_from, h, if_true, sum_online_from, hget]
      rw [ih (cpu + 1) _ _ hlen2]
      simp [online_snapshots, h]
    · have h0 : c.online = false := by simpa using h
      have hlen2 : cpu + 1 + cs.length ≤ arr.length := by omega
      simp only [on_each_cpu_from, h0, sum_online_from, Bool.false_eq_true, if_false]
      rw [ih (cpu + 1) arr total hlen2]
      simp [online_snapshots, h0]

theorem U64_pos : 0 < U64 := by decide

theorem total_add_bounded (t e : pmu_counts) : (total_add t e).bounded := by
  simp only [pmu_counts.bounded, total_add]
  exact ⟨Nat.mod_lt _ U64_pos, Nat.mod_lt _ U64_pos, Nat.mod_lt _ U64_pos,
    Nat.mod_lt _ U64_pos, Nat.mod_lt _ U64_pos, Nat.mod_lt _ U64_pos, Nat.mod_lt _ U64_pos⟩

/-- Adding with a reduction modulo `2^64` at every step gives the sum
modulo `2^64`. -/
theorem foldl_total_add (l : List pmu_counts) (t : pmu_counts) (ht : t.bounded) :
    l.foldl total_add t =
      { instructions := (t.instructions + (l.map (fun e => e.instructions)).sum) % U64
        l1i_ref := (t.l1i_ref + (l.map (fun e => e.l1i_ref)).sum) % U64
        l1i_miss := (t.l1i_miss + (l.map (fun e => e.l1i_miss)).sum) % U64
        l1d_ref := (t.l1d_ref + (l.map (fun e => e.l1d_ref)).sum) % U64
        l1d_miss := (t.l1d_miss + (l.map (fun e => e.l1d_miss)).sum) % U64
        llc_miss := (t.llc_miss + (l.map (fun e => e.llc_miss)).sum) % U64
        cycles := (t.cycles + (l.map (fun e => e.cycles)).sum) % U64 } := by
  induction l generalizing t with
  | nil =>
    obtain ⟨h1, h2, h3, h4, h5, h6, h7⟩ := ht
    cases t
    simp only [List.foldl_nil, List.map_nil, List.sum_nil, Nat.add_zero] at *
    simp [Nat.mod_eq_of_lt, h1, h2, h3, h4, h5, h6, h7]
  | cons x xs ih =>
    rw [List.foldl_cons, ih _ (total_add_bounded t x)]
    simp only [total_add, List.map_cons, List.sum_cons, Nat.mod_add_mod, Nat.add_assoc]

theorem collect_totals_eq (m : Machine) :
    collect_totals m =
      (online_total m.cpus,
        m.cpus.map (fun c =>
          if c.online then { c with core := (pmu_read_local c.core).2 } else c)) := by
  have h1 := sum_after_collect m.cpus 0 (List.replicate (nr_cpu_ids m) pmu_counts.zero)
    pmu_counts.zero (by simp [nr_cpu_ids])
  have h2 := on_each_cpu_from_cores pmu_collect_cpu (fun c => (pmu_read_local c).2)
    (fun _ _ _ => rfl) 0 (List.replicate (nr_cpu_ids m) pmu_counts.zero) m.cpus
  have hz : pmu_counts.zero.bounded := by
    simp only [pmu_counts.bounded, pmu_counts.zero]
    decide
  have h3 := foldl_total_add (online_snapshots m.cpus) pmu_counts.zero hz
  simp only [collect_totals, on_each_cpu, h1, h3]
  refine Prod.ext ?_ h2
  simp [online_total, u64_sum, pmu_counts.zero]

/-- C6: when the allocation succeeds `pmu_proc_show` returns 0, and the text
it writes carries, for each of the seven fields, the sum modulo `2^64` of
that field over the snapshots of the online CPUs only; the offline CPUs
neither contribute nor make it fail, whatever the number of possible CPUs
and the online set. -/
theorem c6_totals_sum_online_only (m : Machine) :
    (pmu_proc_show true m).1 = 0 ∧
    (pmu_proc_show true m).2.1 = show_text (online_total m.cpus) m.pmu_state ∧
    (collect_totals m).1 =
      { instructions := (((m.cpus.filter (fun c => c.online)).map
            (fun c => (pmu_read_local c.core).1.instructions)).sum) % U64
        l1i_ref := (((m.cpus.filter (fun c => c.online)).map
            (fun c => (pmu_read_local c.core).1.l1i_ref)).sum) % U64
        l1i_miss := (((m.cpus.filter (fun c => c.online)).map
            (fun c => (pmu_read_local c.core).1.l1i_miss)).sum) % U64
        l1d_ref := (((m.cpus.filter (fun c => c.online)).map
            (fun c => (pmu_read_local c.core).1.l1d_ref)).sum) % U64
        l1d_miss := (((m.cpus.filter (fun c => c.online)).map
            (fun c => (pmu_read_local c.core).1.l1d_miss)).sum) % U64
        llc_miss := (((m.cpus.filter (fun c => c.online)).map
            (fun c => (pmu_read_local c.core).1.llc_miss)).sum) % U64
        cycles := (((m.cpus.filter (fun c => c.online)).map
            (fun c => (pmu_read_local c.core).1.cycles)).sum) % U64 } := by
  have h := collect_totals_eq m
  refine ⟨rfl, ?_, ?_⟩
  · simp only [pmu_proc_show, Bool.not_true, Bool.false_eq_true, if_false, h]
  · rw [h]
    simp only [online_total, u64_sum, online_snapshots, List.map_map, pmu_read_local_counts]
    rfl

/-! ## The counter program -/

theorem reset_trace (c : Core) : (pmu_reset_cpu c).trace = c.trace ++ establish_writes := by
  simp only [pmu_reset_cpu, pmu_program_counter, write_pmcntenclr_el0, write_pmovsclr_el0,
    write_pmcr_el0, write_pmselr_el0, write_pmxevtyper_el0, write_pmxevcntr_el0,
    write_pmcntenset_el0, msr, List.append_assoc, List.singleton_append, establish_writes]
  rfl

/-- C7: on every core `pmu_reset_cpu` executes exactly these register writes,
in this order: `PMCNTENCLR <- 0x8000003F`, `PMOVSCLR <- 0xFFFFFFFF`,
`PMCR <- 0x7`, then for each pair (0,0x08), (1,0x14), (2,0x01), (3,0x04),
(4,0x03), (5,0x17) select the slot, bind the event and write 0 to the
counter, and last `PMCNTENSET <- 0x8000003F`; the enable write is the last
one, and every online CPU executes the same sequence on a start. -/
theorem c7_reset_write_sequence (c : Core) (m : Machine) :
    (pmu_reset_cpu c).trace = c.trace ++
      [⟨Reg.PMCNTENCLR, 0x8000003F⟩, ⟨Reg.PMOVSCLR, 0xFFFFFFFF⟩, ⟨Reg.PMCR, 0x7⟩,
       ⟨Reg.PMSELR, 0⟩, ⟨Reg.PMXEVTYPER, 0x08⟩, ⟨Reg.PMXEVCNTR, 0⟩,
       ⟨Reg.PMSELR, 1⟩, ⟨Reg.PMXEVTYPER, 0x14⟩, ⟨Reg.PMXEVCNTR, 0⟩,
       ⟨Reg.PMSELR, 2⟩, ⟨Reg.PMXEVTYPER, 0x01⟩, ⟨Reg.PMXEVCNTR, 0⟩,
       ⟨Reg.PMSELR, 3⟩, ⟨Reg.PMXEVTYPER, 0x04⟩, ⟨Reg.PMXEVCNTR, 0⟩,
       ⟨Reg.PMSELR, 4⟩, ⟨Reg.PMXEVTYPER, 0x03⟩, ⟨Reg.PMXEVCNTR, 0⟩,
       ⟨Reg.PMSELR, 5⟩, ⟨Reg.PMXEVTYPER, 0x17⟩, ⟨Reg.PMXEVCNTR, 0⟩,
       ⟨Reg.PMCNTENSET, 0x8000003F⟩] ∧
    establish_writes.getLast? = some ⟨Reg.PMCNTENSET, 0x8000003F⟩ ∧
    (establish_writes.dropLast.all (fun w => decide (w.reg ≠ Reg.PMCNTENSET))) = true ∧
    (pmu_start_all_cpus m).cpus.map (fun x => x.core.trace) =
      m.cpus.map (fun x =>
        if x.online then x.core.trace ++ establish_writes else x.core.trace) := by
  refine ⟨reset_trace c, by decide, by decide, ?_⟩
  rw [start_cpus, List.map_map]
  apply List.map_congr_left
  intro x _
  by_cases h : x.online = true
  · simp [h, reset_trace]
  · simp [h]

/-- The effect of a write-one-to-clear on one bit. -/
theorem testBit_clear_bits (x m i : Nat) :
    (clear_bits x m).testBit i = (x.testBit i && !m.testBit i) := by
  simp only [clear_bits, Nat.testBit_xor, Nat.testBit_land]
  cases x.testBit i <;> cases m.testBit i <;> rfl

theorem disable_regs (c : Core) :
    (pmu_disable_cpu c).regs =
      { c.regs with pmcnten := clear_bits c.regs.pmcnten 0x8000003F } := rfl

theorem online_snapshots_map (g : Core → Core) (cpus : List Cpu) :
    online_snapshots
        (cpus.map (fun c => if c.online then { c with core := g c.core } else c)) =
      (cpus.filter (fun c => c.online)).map (fun c => core_snapshot (g c.core)) := by
  induction cpus with
  | nil => rfl
  | cons c cs ih =>
    simp only [online_snapshots] at ih
    by_cases h : c.online = true
    · simp [online_snapshots, h, ih]
    · simp [online_snapshots, h, ih]

/-- C8: `pmu_disable_cpu` executes one register write, `PMCNTENCLR <-
0x8000003F`; afterwards the enable bits of slots 0..5 and of the cycle
counter are clear and the other enable bits are as before, and every event
counter, the cycle counter, every event binding and the remaining registers
are unchanged, so that the snapshot read afterwards is the snapshot present
at the stop, and the totals collected after `pmu_stop_all_cpus` are the
totals present at the stop. -/
theorem c8_disable_preserves_counts (c : Core) (m : Machine) :
    (pmu_disable_cpu c).trace = c.trace ++ [⟨Reg.PMCNTENCLR, 0x8000003F⟩] ∧
    (∀ i ∈ enable_bits, (pmu_disable_cpu c).regs.pmcnten.testBit i = false) ∧
    (∀ i, i ∉ enable_bits →
      (pmu_disable_cpu c).regs.pmcnten.testBit i = c.regs.pmcnten.testBit i) ∧
    (pmu_disable_cpu c).regs.evcntr = c.regs.evcntr ∧
    (pmu_disable_cpu c).regs.pmccntr = c.regs.pmccntr ∧
    (pmu_disable_cpu c).regs.evtyper = c.regs.evtyper ∧
    (pmu_disable_cpu c).regs = { c.regs with pmcnten := (pmu_disable_cpu c).regs.pmcnten } ∧
    (pmu_read_local (pmu_disable_cpu c)).1 = (pmu_read_local c).1 ∧
    (collect_totals (pmu_stop_all_cpus m)).1 = (collect_totals m).1 := by
  refine ⟨rfl, ?_, ?_, rfl, rfl, rfl, rfl, rfl, ?_⟩
  rotate_left 2
  · rw [collect_totals_eq, collect_totals_eq]
    simp only [online_total, stop_cpus, online_snapshots_map]
    rfl
  · intro i hi
    rw [disable_regs]
    have hm : ∀ j ∈ enable_bits, (0x8000003F : Nat).testBit j = true := by decide
    simp only [testBit_clear_bits, hm i hi, Bool.not_true, Bool.and_false]
  · intro i hi
    rw [disable_regs]
    simp only [testBit_clear_bits]
    have hm : (0x8000003F : Nat).testBit i = false := by
      simp only [enable_bits, List.mem_cons, List.mem_singleton, List.not_mem_nil, or_false,
        not_or] at hi
      obtain ⟨h0, h1, h2, h3, h4, h5, h31⟩ := hi
      by_cases hlt : i < 32
      · interval_cases i <;> first | contradiction | decide
      · apply Nat.testBit_lt_two_pow
        calc (0x8000003F : Nat) < 2 ^ 32 := by decide
          _ ≤ 2 ^ i := Nat.pow_le_pow_right (by decide) (by omega)
    simp [hm]

/-- The registers after `pmu_reset_cpu`, computed from the registers before. -/
theorem reset_regs (c : Core) :
    (pmu_reset_cpu c).regs =
      { pmselr := 5
        evtyper := (((((c.regs.evtyper.set 0 0x08).set 1 0x14).set 2 0x01).set 3 0x04).set 4
          0x03).set 5 0x17
        evcntr := ((((((c.regs.evcntr.map (fun _ => 0)).set 0 0).set 1 0).set 2 0).set 3
          0).set 4 0).set 5 0
        pmccntr := 0
        pmcr := 1
        pmcnten := clear_bits c.regs.pmcnten 0x8000003F ||| 0x8000003F
        pmovs := clear_bits c.regs.pmovs 0xFFFFFFFF } := rfl

theorem set_chain_idem (l : List Nat) (a b c d e f : Nat) :
    ((((((((((((l.set 0 a).set 1 b).set 2 c).set 3 d).set 4 e).set 5 f).set 0 a).set 1 b).set 2
      c).set 3 d).set 4 e).set 5 f) =
    (((((l.set 0 a).set 1 b).set 2 c).set 3 d).set 4 e).set 5 f := by
  apply List.ext_getElem?
  intro n
  simp only [List.getElem?_set, List.length_set]
  split_ifs <;> rfl

theorem zeroed_counters (l : List Nat) :
    ((((((l.map (fun _ => 0)).set 0 0).set 1 0).set 2 0).set 3 0).set 4 0).set 5 0 =
      List.replicate l.length 0 := by
  apply List.ext_getElem?
  intro n
  simp only [List.getElem?_set, List.length_set, List.length_map, List.getElem?_map,
    List.getElem?_replicate]
  split_ifs <;> first | rfl | simp_all

theorem reset_evcntr (c : Core) :
    (pmu_reset_cpu c).regs.evcntr = List.replicate c.regs.evcntr.length 0 := by
  rw [reset_regs]
  exact zeroed_counters _

theorem getD_replicate_zero (n i : Nat) : (List.replicate n 0).getD i 0 = 0 := by
  simp only [List.getD_eq_getElem?_getD, List.getElem?_replicate]
  split_ifs <;> rfl

theorem reset_snapshot (c : Core) : core_snapshot (pmu_reset_cpu c) = pmu_counts.zero := by
  simp only [core_snapshot, reset_evcntr, getD_replicate_zero]
  rw [reset_regs]
  rfl

theorem reset_regs_idem (c : Core) :
    (pmu_reset_cpu (pmu_reset_cpu c)).regs = (pmu_reset_cpu c).regs := by
  rw [reset_regs (pmu_reset_cpu c), reset_evcntr, reset_regs c]
  have h1 := set_chain_idem c.regs.evtyper 0x08 0x14 0x01 0x04 0x03 0x17
  have h2 : ((((((((List.replicate c.regs.evcntr.length 0).map (fun _ => 0)).set 0 0).set 1
      0).set 2 0).set 3 0).set 4 0).set 5 0) =
      ((((((c.regs.evcntr.map (fun _ => 0)).set 0 0).set 1 0).set 2 0).set 3 0).set 4 0).set 5
        0 := by
    rw [zeroed_counters, zeroed_counters, List.length_replicate]
  have h3 : clear_bits (clear_bits c.regs.pmcnten 0x8000003F ||| 0x8000003F) 0x8000003F |||
      0x8000003F = clear_bits c.regs.pmcnten 0x8000003F ||| 0x8000003F := by
    apply Nat.eq_of_testBit_eq
    intro i
    simp only [Nat.testBit_lor, testBit_clear_bits]
    cases c.regs.pmcnten.testBit i <;> cases (0x8000003F : Nat).testBit i <;> rfl
  have h4 : clear_bits (clear_bits c.regs.pmovs 0xFFFFFFFF) 0xFFFFFFFF =
      clear_bits c.regs.pmovs 0xFFFFFFFF := by
    apply Nat.eq_of_testBit_eq
    intro i
    simp only [testBit_clear_bits]
    cases c.regs.pmovs.testBit i <;> cases (0xFFFFFFFF : Nat).testBit i <;> rfl
  simp only [h1, h3, h4]
  rw [zeroed_counters, zeroed_counters, List.length_replicate]

/-- C9: `pmu_reset_cpu` leaves every event counter and the cycle counter of
the core at 0 whatever they held, so the report right after a start has
seven zero totals; and a second start in a row leaves the registers of every
core, the online set and the collection state (Running) as the first one
did. -/
theorem c9_start_zeroes_and_is_idempotent (c : Core) (m : Machine) :
    (∀ i, (pmu_reset_cpu c).regs.evcntr.getD i 0 = 0) ∧
    (pmu_reset_cpu c).regs.pmccntr = 0 ∧
    (pmu_read_local (pmu_reset_cpu c)).1 = pmu_counts.zero ∧
    (pmu_reset_cpu (pmu_reset_cpu c)).regs = (pmu_reset_cpu c).regs ∧
    (collect_totals (pmu_start_all_cpus m)).1 = pmu_counts.zero ∧
    (pmu_start_all_cpus (pmu_start_all_cpus m)).cpus.map (fun x => (x.online, x.core.regs)) =
      (pmu_start_all_cpus m).cpus.map (fun x => (x.online, x.core.regs)) ∧
    (pmu_start_all_cpus (pmu_start_all_cpus m)).pmu_state = (pmu_start_all_cpus m).pmu_state ∧
    (pmu_start_all_cpus m).pmu_state = PmuState.PMU_RUNNING := by
  refine ⟨?_, ?_, ?_, reset_regs_idem c, ?_, ?_, rfl, rfl⟩
  · intro i
    rw [reset_evcntr]
    exact getD_replicate_zero _ _
  · rw [reset_regs]
  · rw [pmu_read_local_counts]
    exact reset_snapshot c
  · rw [collect_totals_eq]
    simp only [online_total, start_cpus, online_snapshots_map, reset_snapshot, u64_sum,
      List.map_map]
    have hz : ∀ l : List Cpu, (l.map (fun _ => 0)).sum = 0 := by
      intro l
      induction l with
      | nil => rfl
      | cons x xs ih => simp
    simp only [pmu_counts.zero, Function.comp_def, hz]
    rfl
  · rw [start_cpus (pmu_start_all_cpus m), start_cpus m]
    simp only [List.map_map]
    apply List.map_congr_left
    intro x _
    by_cases h : x.online = true
    · simp [h, reset_regs_idem]
    · simp [h]

/-! ## The report and its reader -/

theorem digit_char_facts : ∀ d, d < 10 →
    (digit_char d).isDigit = true ∧ (digit_char d).toNat - '0'.toNat = d ∧
    isspace (digit_char d) = false ∧ digit_char d ≠ '-' ∧ digit_char d ≠ '+' ∧
    digit_char d ≠ NUL := by
  decide

theorem put_dec_append (fuel n : Nat) (acc tl : List Char) :
    put_dec fuel n acc ++ tl = put_dec fuel n (acc ++ tl) := by
  induction fuel generalizing n acc with
  | zero => rfl
  | succ f ih =>
    simp only [put_dec]
    split_ifs
    · rfl
    · rw [ih]; rfl

theorem put_dec_length (fuel n : Nat) (acc : List Char) :
    (put_dec fuel n acc).length ≤ fuel + acc.length := by
  induction fuel generalizing n acc with
  | zero => simp [put_dec]
  | succ f ih =>
    simp only [put_dec]
    split_ifs
    · simp; omega
    · have := ih (n / 10) (digit_char (n % 10) :: acc)
      simp at this
      omega

theorem put_dec_head (fuel n : Nat) (acc : List Char) :
    ∃ d r, d < 10 ∧ put_dec (fuel + 1) n acc = digit_char d :: r := by
  induction fuel generalizing n acc with
  | zero =>
    refine ⟨n % 10, acc, Nat.mod_lt _ (by decide), ?_⟩
    simp only [put_dec]
    split_ifs <;> rfl
  | succ f ih =>
    by_cases h : n / 10 = 0
    · refine ⟨n % 10, acc, Nat.mod_lt _ (by decide), ?_⟩
      rw [put_dec]
      simp [h]
    · obtain ⟨d, r, hd, hr⟩ := ih (n / 10) (digit_char (n % 10) :: acc)
      refine ⟨d, r, hd, ?_⟩
      rw [put_dec]
      simp only [h, if_false]
      exact hr

theorem scan_put_dec (fuel n : Nat) (tl : List Char) (hn : n < 10 ^ fuel) :
    scan_digits 0 (put_dec fuel n tl) = scan_digits n tl := by
  induction fuel generalizing n tl with
  | zero =>
    have : n = 0 := by simpa using hn
    subst this
    rfl
  | succ f ih =>
    have hd := digit_char_facts (n % 10) (Nat.mod_lt _ (by decide))
    by_cases h : n / 10 = 0
    · have hn' : n % 10 = n := by omega
      rw [put_dec]
      simp only [h, if_true, scan_digits, hd.1, hd.2.1]
      simp [hn']
    · have hlt : n / 10 < 10 ^ f := by
        rw [pow_succ] at hn
        omega
      rw [put_dec]
      simp only [h, if_false]
      rw [ih (n / 10) _ hlt]
      simp only [scan_digits, hd.1, hd.2.1, if_true]
      congr 1
      omega

theorem U64_le_pow : U64 ≤ 10 ^ 20 := by decide

theorem fmt_llu_append (v : Nat) (tl : List Char) :
    fmt_llu v ++ tl = put_dec 20 (v % U64) tl := by
  rw [fmt_llu, put_dec_append]
  rfl

theorem fmt_llu_length (v : Nat) : (fmt_llu v).length ≤ 20 := by
  have := put_dec_length 20 (v % U64) []
  simpa [fmt_llu] using this

theorem put_dec_all_digits (fuel n : Nat) (acc : List Char) (p : Char → Bool)
    (hp : ∀ d, d < 10 → p (digit_char d) = true) (hacc : acc.all p = true) :
    (put_dec fuel n acc).all p = true := by
  induction fuel generalizing n acc with
  | zero => exact hacc
  | succ f ih =>
    have hd := hp (n % 10) (Nat.mod_lt _ (by decide))
    rw [put_dec]
    split_ifs
    · simp only [List.all_cons, hd, hacc, Bool.and_self]
    · exact ih _ _ (by simp only [List.all_cons, hd, hacc, Bool.and_self])

theorem fmt_llu_no_nul (v : Nat) : (fmt_llu v).all (fun c => decide (c ≠ NUL)) = true :=
  put_dec_all_digits 20 _ [] _ (fun d hd => by simpa using (digit_char_facts d hd).2.2.2.2.2) rfl

/-- The `%llu` conversion reads back the number that `%llu` printed, up to a
following newline. -/
theorem conv_llu_fmt_llu (v : Nat) (hv : v < U64) (tl : List Char) :
    conv_llu (skip_ws (fmt_llu v ++ '\n' :: tl)) = some (v, '\n' :: tl) := by
  have hmod : v % U64 = v := Nat.mod_eq_of_lt hv
  obtain ⟨d, r, hd, hr⟩ := put_dec_head 19 (v % U64) ('\n' :: tl)
  have hf := digit_char_facts d hd
  have hscan := scan_put_dec 20 (v % U64) ('\n' :: tl)
    (lt_of_lt_of_le (Nat.mod_lt _ U64_pos) U64_le_pow)
  rw [fmt_llu_append]
  rw [hr] at hscan ⊢
  have hnl : scan_digits (v % U64) ('\n' :: tl) = (v % U64, '\n' :: tl) := by
    simp [scan_digits, Char.isDigit]
  rw [hnl] at hscan
  have hge : ¬ v ≥ U64 := by omega
  simp only [skip_ws, hf.2.2.1, Bool.false_eq_true, if_false, conv_llu, hf.2.2.2.1,
    hf.2.2.2.2.1, or_self, hf.1, if_true, hscan, llu_value, decide_False, hmod, hge]

theorem run_scan_lit (c : Char) (ds : List Directive) (inp : List Char) (out : List Nat) :
    run_scan (Directive.lit c :: ds) (c :: inp) out = run_scan ds inp out := by
  simp [run_scan]

theorem run_scan_ws_space (ds : List Directive) (inp : List Char) (out : List Nat) :
    run_scan (Directive.ws :: ds) (' ' :: inp) out = run_scan (Directive.ws :: ds) inp out := by
  simp [run_scan, skip_ws, isspace]

theorem run_scan_ws_nl (ds : List Directive) (inp : List Char) (out : List Nat) :
    run_scan (Directive.ws :: ds) ('\n' :: inp) out = run_scan (Directive.ws :: ds) inp out := by
  simp [run_scan, skip_ws, isspace]

theorem run_scan_ws_llu (ds : List Directive) (inp : List Char) (out : List Nat) :
    run_scan (Directive.ws :: Directive.llu :: ds) inp out =
      run_scan (Directive.llu :: ds) inp out := by
  have hidem : ∀ l : List Char, skip_ws (skip_ws l) = skip_ws l := by
    intro l
    induction l with
    | nil => rfl
    | cons c cs ih =>
      by_cases h : isspace c = true
      · simp [skip_ws, h, ih]
      · simp [skip_ws, h]
  simp only [run_scan, hidem]

theorem run_scan_llu (ds : List Directive) (v : Nat) (hv : v < U64) (tl : List Char)
    (out : List Nat) :
    run_scan (Directive.llu :: ds) (fmt_llu v ++ '\n' :: tl) out =
      run_scan ds ('\n' :: tl) (out ++ [v]) := by
  simp only [run_scan, conv_llu_fmt_llu v hv tl]

theorem run_scan_ws_lit (c x : Char) (hx : isspace x = false) (ds : List Directive)
    (inp : List Char) (out : List Nat) :
    run_scan (Directive.ws :: Directive.lit c :: ds) (x :: inp) out =
      run_scan (Directive.lit c :: ds) (x :: inp) out := by
  simp [run_scan, skip_ws, hx]

theorem parse_stats_format : parse_format stats_format =
    (("instructions:".toList.map Directive.lit) ++ [Directive.ws, Directive.llu, Directive.ws]) ++
    (("l1i_references:".toList.map Directive.lit) ++ [Directive.ws, Directive.llu, Directive.ws]) ++
    (("l1i_misses:".toList.map Directive.lit) ++ [Directive.ws, Directive.llu, Directive.ws]) ++
    (("l1d_references:".toList.map Directive.lit) ++ [Directive.ws, Directive.llu, Directive.ws]) ++
    (("l1d_misses:".toList.map Directive.lit) ++ [Directive.ws, Directive.llu, Directive.ws]) ++
    (("llc_misses:".toList.map Directive.lit) ++ [Directive.ws, Directive.llu, Directive.ws]) ++
    (("cycles:".toList.map Directive.lit) ++ [Directive.ws, Directive.llu]) := by
  decide

theorem run_scan_nil (inp : List Char) (out : List Nat) :
    run_scan [] inp out = ((out.length : Int), out) := by
  simp [run_scan]

theorem show_text_eq (total : pmu_counts) (st : PmuState) :
    show_text total st =
      "instructions: ".toList ++ (fmt_llu total.instructions ++ '\n' ::
      ("l1i_references: ".toList ++ (fmt_llu total.l1i_ref ++ '\n' ::
      ("l1i_misses: ".toList ++ (fmt_llu total.l1i_miss ++ '\n' ::
      ("l1d_references: ".toList ++ (fmt_llu total.l1d_ref ++ '\n' ::
      ("l1d_misses: ".toList ++ (fmt_llu total.l1d_miss ++ '\n' ::
      ("llc_misses: ".toList ++ (fmt_llu total.llc_miss ++ '\n' ::
      ("cycles: ".toList ++ (fmt_llu total.cycles ++ '\n' ::
      ("state: ".toList ++
        ((if st = PmuState.PMU_RUNNING then "running" else "stopped").toList ++
        ['\n']))))))))))))))) := by
  simp only [show_text, seq_printf_llu, seq_printf_s, List.append_assoc,
    List.cons_append, List.nil_append]

theorem run_scan_show_text (total : pmu_counts) (st : PmuState) (h : total.bounded) :
    run_scan (parse_format stats_format) (show_text total st) [] =
      (7, [total.instructions, total.l1i_ref, total.l1i_miss, total.l1d_ref, total.l1d_miss,
        total.llc_miss, total.cycles]) := by
  obtain ⟨h1, h2, h3, h4, h5, h6, h7⟩ := h
  have hl : isspace 'l' = false := by decide
  have hc : isspace 'c' = false := by decide
  rw [parse_stats_format, show_text_eq]
  simp only [String.toList, List.map_cons, List.map_nil, List.append_assoc, List.cons_append,
    List.nil_append, run_scan_lit, run_scan_ws_space, run_scan_ws_llu, run_scan_ws_nl,
    run_scan_llu _ _ h1, run_scan_llu _ _ h2, run_scan_llu _ _ h3, run_scan_llu _ _ h4,
    run_scan_llu _ _ h5, run_scan_llu _ _ h6, run_scan_llu _ _ h7,
    run_scan_ws_lit _ _ hl, run_scan_ws_lit _ _ hc, run_scan_nil]
  rfl

theorem show_text_length (total : pmu_counts) (st : PmuState) :
    0 < (show_text total st).length ∧ (show_text total st).length ≤ 512 - 1 := by
  have h1 := fmt_llu_length total.instructions
  have h2 := fmt_llu_length total.l1i_ref
  have h3 := fmt_llu_length total.l1i_miss
  have h4 := fmt_llu_length total.l1d_ref
  have h5 := fmt_llu_length total.l1d_miss
  have h6 := fmt_llu_length total.llc_miss
  have h7 := fmt_llu_length total.cycles
  rw [show_text_eq]
  cases st <;>
    simp only [String.toList, List.length_append, List.length_cons, List.length_nil,
      reduceCtorEq, if_false, if_true] <;>
    omega

theorem show_text_no_nul (total : pmu_counts) (st : PmuState) :
    (show_text total st).all (fun c => decide (c ≠ NUL)) = true := by
  rw [show_text_eq]
  simp only [List.all_append, List.all_cons, fmt_llu_no_nul, Bool.and_eq_true]
  cases st <;> decide

theorem takeWhile_append_nul (l : List Char)
    (h : l.all (fun c => decide (c ≠ NUL)) = true) :
    (l ++ [NUL]).takeWhile (fun c => decide (c ≠ NUL)) = l := by
  induction l with
  | nil => simp [List.takeWhile]
  | cons c cs ih =>
    simp only [List.all_cons, Bool.and_eq_true] at h
    have hrec := ih h.2
    rw [List.cons_append, List.takeWhile_cons, h.1]
    simp only [if_true, hrec]

/-- C10: for seven `u64` totals and either state, the text written by
`pmu_proc_show` is parsed by the format of the client's `pmu_read_stats` with
all 7 conversions stored, `pmu_read_stats` returns 0, and each field read
equals the total printed. -/
theorem c10_report_parsed_by_client (total : pmu_counts) (st : PmuState) (s : pmu_stats)
    (h : total.bounded) :
    sscanf ((show_text total st).take (512 - 1) ++ [NUL]) stats_format =
      (7, [total.instructions, total.l1i_ref, total.l1i_miss, total.l1d_ref,
        total.l1d_miss, total.llc_miss, total.cycles]) ∧
    pmu_read_stats (show_text total st) s =
      (0, { instructions := total.instructions, l1i_ref := total.l1i_ref,
            l1i_miss := total.l1i_miss, l1d_ref := total.l1d_ref,
            l1d_miss := total.l1d_miss, llc_miss := total.llc_miss,
            cycles := total.cycles }) := by
  have hlen := show_text_length total st
  have htake : (show_text total st).take (512 - 1) = show_text total st :=
    List.take_of_length_le hlen.2
  have hscan : sscanf (show_text total st ++ [NUL]) stats_format =
      (7, [total.instructions, total.l1i_ref, total.l1i_miss, total.l1d_ref,
        total.l1d_miss, total.llc_miss, total.cycles]) := by
    simp only [sscanf]
    rw [takeWhile_append_nul _ (show_text_no_nul total st)]
    exact run_scan_show_text total st h
  have hne : ¬ (show_text total st).length = 0 := by omega
  refine ⟨by rw [htake]; exact hscan, ?_⟩
  simp only [pmu_read_stats, htake, hne, if_false, hscan, ne_eq, not_true_eq_false,
    store_stats, List.getD_cons_zero, List.getD_cons_succ]

theorem c10_report_parsed_by_client_witness :
    sscanf ((show_text ⟨123456789, 0, 42, 18446744073709551615, 7, 1000, 99⟩
        PmuState.PMU_RUNNING).take (512 - 1) ++ [NUL]) stats_format =
      (7, [123456789, 0, 42, 18446744073709551615, 7, 1000, 99]) ∧
    pmu_read_stats (show_text ⟨123456789, 0, 42, 18446744073709551615, 7, 1000, 99⟩
        PmuState.PMU_RUNNING) ⟨0, 0, 0, 0, 0, 0, 0⟩ =
      (0, { instructions := 123456789, l1i_ref := 0, l1i_miss := 42,
            l1d_ref := 18446744073709551615, l1d_miss := 7, llc_miss := 1000,
            cycles := 99 }) :=
  c10_report_parsed_by_client ⟨123456789, 0, 42, 18446744073709551615, 7, 1000, 99⟩
    PmuState.PMU_RUNNING ⟨0, 0, 0, 0, 0, 0, 0⟩
    ⟨by decide, by decide, by decide, by decide, by decide, by decide, by decide⟩

/-! ## Monotonicity of the totals -/

/-- The sum of a monotone field over the online CPUs does not decrease when
no counter decreases and no online CPU goes offline. -/
theorem online_field_sum_mono (f : pmu_counts → Nat)
    (hf : ∀ a b, counts_le a b → f a ≤ f b) (l1 l2 : List Cpu)
    (hc : List.Forall₂
      (fun c1 c2 => counts_le (core_snapshot c1.core) (core_snapshot c2.core)) l1 l2)
    (ho : List.Forall₂ (fun c1 c2 => c1.online = true → c2.online = true) l1 l2) :
    ((online_snapshots l1).map f).sum ≤ ((online_snapshots l2).map f).sum := by
  induction l1 generalizing l2 with
  | nil =>
    cases hc
    simp [online_snapshots]
  | cons c1 cs ih =>
    cases l2 with
    | nil => cases hc
    | cons c2 ds =>
      rw [List.forall₂_cons] at hc ho
      have hrec := ih ds hc.2 ho.2
      have hle := hf _ _ hc.1
      simp only [online_snapshots] at hrec ⊢
      by_cases h1 : c1.online = true
      · have h2 := ho.1 h1
        simp only [List.filter_cons, h1, h2, if_true, List.map_cons, List.sum_cons]
        omega
      · have h1f : c1.online = false := by simpa using h1
        by_cases h2 : c2.online = true
        · simp only [List.filter_cons, h1f, h2, if_true, Bool.false_eq_true, if_false,
            List.map_cons, List.sum_cons]
          omega
        · have h2f : c2.online = false := by simpa using h2
          simp only [List.filter_cons, h1f, h2f, Bool.false_eq_true, if_false]
          exact hrec

theorem u64_sum_mono (f : pmu_counts → Nat) (hf : ∀ a b, counts_le a b → f a ≤ f b)
    (m1 m2 : Machine) (hc : no_counter_decreased m1 m2) (ho : online_kept m1 m2)
    (hw : ((online_snapshots m2.cpus).map f).sum < U64) :
    u64_sum f (online_snapshots m1.cpus) ≤ u64_sum f (online_snapshots m2.cpus) := by
  have h := online_field_sum_mono f hf m1.cpus m2.cpus hc ho
  simp only [u64_sum]
  rw [Nat.mod_eq_of_lt hw]
  exact le_trans (Nat.mod_le _ _) h

/-- C11, as stated, fails in two ways.  With the same two CPUs online and no
counter lower than before, the cycle total goes from `2^64 - 1` to `0`,
because the sum is reduced modulo `2^64`; and when a CPU goes offline
between the two reports, no counter being lower, the cycle total goes from
1500 to 1200, because only the online CPUs are summed. -/
theorem c11_total_can_decrease :
    (no_counter_decreased wrap_before wrap_after ∧
      wrap_before.cpus.map (fun c => c.online) = wrap_after.cpus.map (fun c => c.online) ∧
      (collect_totals wrap_before).1.cycles = 18446744073709551615 ∧
      (collect_totals wrap_after).1.cycles = 0 ∧
      (pmu_proc_show true wrap_before).2.1 =
        ("instructions: 0\nl1i_references: 0\nl1i_misses: 0\nl1d_references: 0\n" ++
         "l1d_misses: 0\nllc_misses: 0\ncycles: 18446744073709551615\n" ++
         "state: running\n").toList ∧
      (pmu_proc_show true wrap_after).2.1 =
        ("instructions: 0\nl1i_references: 0\nl1i_misses: 0\nl1d_references: 0\n" ++
         "l1d_misses: 0\nllc_misses: 0\ncycles: 0\nstate: running\n").toList) ∧
    (no_counter_decreased unplug_before unplug_after ∧
      (collect_totals unplug_before).1.cycles = 1500 ∧
      (collect_totals unplug_after).1.cycles = 1200) := by
  refine ⟨⟨?_, by decide, by decide, by decide, by decide, by decide⟩, ?_, by decide,
    by decide⟩
  · refine List.Forall₂.cons ?_ (List.Forall₂.cons ?_ List.Forall₂.nil) <;>
      simp only [counts_le] <;> decide
  · refine List.Forall₂.cons ?_ (List.Forall₂.cons ?_ List.Forall₂.nil) <;>
      simp only [counts_le] <;> decide

/-- C11, amended: for two reports with no counter of any core lower in the
second pass, every CPU online in the first pass still online in the second,
and the sums over the online CPUs of the second pass below `2^64`, each of
the seven totals of the second report is at least the same total of the
first. -/
theorem c11_totals_monotone_without_wrap (m1 m2 : Machine)
    (hc : no_counter_decreased m1 m2) (ho : online_kept m1 m2)
    (hw : (raw_sum (online_snapshots m2.cpus)).bounded) :
    counts_le (collect_totals m1).1 (collect_totals m2).1 ∧
    (pmu_proc_show true m1).2.1 = show_text (collect_totals m1).1 m1.pmu_state ∧
    (pmu_proc_show true m2).2.1 = show_text (collect_totals m2).1 m2.pmu_state := by
  refine ⟨?_, rfl, rfl⟩
  obtain ⟨w1, w2, w3, w4, w5, w6, w7⟩ := hw
  simp only [raw_sum] at w1 w2 w3 w4 w5 w6 w7
  rw [collect_totals_eq, collect_totals_eq]
  simp only [counts_le, online_total]
  exact ⟨u64_sum_mono _ (fun _ _ h => h.1) m1 m2 hc ho w1,
    u64_sum_mono _ (fun _ _ h => h.2.1) m1 m2 hc ho w2,
    u64_sum_mono _ (fun _ _ h => h.2.2.1) m1 m2 hc ho w3,
    u64_sum_mono _ (fun _ _ h => h.2.2.2.1) m1 m2 hc ho w4,
    u64_sum_mono _ (fun _ _ h => h.2.2.2.2.1) m1 m2 hc ho w5,
    u64_sum_mono _ (fun _ _ h => h.2.2.2.2.2.1) m1 m2 hc ho w6,
    u64_sum_mono _ (fun _ _ h => h.2.2.2.2.2.2) m1 m2 hc ho w7⟩

theorem c11_totals_monotone_without_wrap_witness :
    counts_le (collect_totals unplug_before).1 (collect_totals wrap_before).1 ∧
    (pmu_proc_show true unplug_before).2.1 =
      show_text (collect_totals unplug_before).1 unplug_before.pmu_state ∧
    (pmu_proc_show true wrap_before).2.1 =
      show_text (collect_totals wrap_before).1 wrap_before.pmu_state :=
  c11_totals_monotone_without_wrap unplug_before wrap_before
    (List.Forall₂.cons (by simp only [counts_le]; decide)
      (List.Forall₂.cons (by simp only [counts_le]; decide) List.Forall₂.nil))
    (List.Forall₂.cons (by decide) (List.Forall₂.cons (by decide) List.Forall₂.nil))
    ⟨by decide, by decide, by decide, by decide, by decide, by decide, by decide⟩

/-! ## Module load -/

theorem pmu_init_ok_iff (stats_ok ctrl_ok : Bool) (m : Machine) :
    (pmu_init stats_ok ctrl_ok m).1 = 0 ↔ stats_ok = true ∧ ctrl_ok = true := by
  cases stats_ok <;> cases ctrl_ok <;> simp [pmu_init, ENOMEM]

/-- A report that ends with the running line does not end with the stopped
line. -/
theorem running_line_excludes_stopped (text : List Char)
    (h : "state: running\n".toList <:+ text) : ¬ "state: stopped\n".toList <:+ text := by
  intro h2
  rcases List.suffix_or_suffix_of_suffix h h2 with h3 | h3
  · exact absurd (List.IsSuffix.eq_of_length h3 (by decide)) (by decide)
  · exact absurd (List.IsSuffix.eq_of_length h3 (by decide)) (by decide)

/-- C12, as stated, fails: from the statically initialised state
(`PMU_STOPPED`), a successful `pmu_init` (result 0) leaves `pmu_state` at
`PMU_RUNNING`, and the report read before any control write ends with
`state: running`, not with `state: stopped`. -/
theorem c12_loaded_state_is_not_stopped :
    (module_image example_machine.cpus).pmu_state = PmuState.PMU_STOPPED ∧
    (pmu_init true true (module_image example_machine.cpus)).1 = 0 ∧
    (pmu_init true true (module_image example_machine.cpus)).2.pmu_state =
      PmuState.PMU_RUNNING ∧
    (pmu_init true true (module_image example_machine.cpus)).2.pmu_state ≠
      PmuState.PMU_STOPPED ∧
    (pmu_proc_show true (pmu_init true true (module_image example_machine.cpus)).2).2.1 =
      ("instructions: 0\nl1i_references: 0\nl1i_misses: 0\nl1d_references: 0\n" ++
       "l1d_misses: 0\nllc_misses: 0\ncycles: 0\nstate: running\n").toList ∧
    ¬ "state: stopped\n".toList <:+
      (pmu_proc_show true (pmu_init true true (module_image example_machine.cpus)).2).2.1 := by
  refine ⟨rfl, by decide, by decide, by decide, by decide, ?_⟩
  apply running_line_excludes_stopped
  have h := proc_show_state_line (pmu_init true true (module_image example_machine.cpus)).2
  exact h

/-- C12, amended: the static initial value of `pmu_state` is `PMU_STOPPED`,
and `pmu_init` starts the counters: after a successful module load
(`pmu_init` returns 0), before any control write, the machine is the one
left by `pmu_start_all_cpus`, `pmu_state` is `PMU_RUNNING` and the report
ends with the line `state: running`. -/
theorem c12_loaded_state_is_running (stats_ok ctrl_ok : Bool) (cpus : List Cpu)
    (h : (pmu_init stats_ok ctrl_ok (module_image cpus)).1 = 0) :
    (module_image cpus).pmu_state = PmuState.PMU_STOPPED ∧
    (pmu_init stats_ok ctrl_ok (module_image cpus)).2 =
      pmu_start_all_cpus (module_image cpus) ∧
    (pmu_init stats_ok ctrl_ok (module_image cpus)).2.pmu_state = PmuState.PMU_RUNNING ∧
    "state: running\n".toList <:+
      (pmu_proc_show true (pmu_init stats_ok ctrl_ok (module_image cpus)).2).2.1 := by
  obtain ⟨h1, h2⟩ := (pmu_init_ok_iff stats_ok ctrl_ok _).mp h
  subst h1 h2
  have hm : (pmu_init true true (module_image cpus)).2 =
      pmu_start_all_cpus (module_image cpus) := rfl
  refine ⟨rfl, hm, by rw [hm]; rfl, ?_⟩
  have hs := proc_show_state_line (pmu_init true true (module_image cpus)).2
  rw [hm] at hs ⊢
  simpa [pmu_start_all_cpus] using hs

theorem c12_loaded_state_is_running_witness :
    (pmu_init true true (module_image example_machine.cpus)).1 = 0 ∧
    (module_image example_machine.cpus).pmu_state = PmuState.PMU_STOPPED ∧
    (pmu_init true true (module_image example_machine.cpus)).2 =
      pmu_start_all_cpus (module_image example_machine.cpus) ∧
    (pmu_init true true (module_image example_machine.cpus)).2.pmu_state =
      PmuState.PMU_RUNNING ∧
    "state: running\n".toList <:+
      (pmu_proc_show true (pmu_init true true (module_image example_machine.cpus)).2).2.1 :=
  ⟨by decide, c12_loaded_state_is_running true true example_machine.cpus (by decide)⟩

end PmuMonitor
